import Mathlib

/-!
Shallow embedding of the Cupid bytecode assembler
(`src/runtime/assembler.py`) and verification of its specification.

Source text is modelled as lists of characters; each Python method of the
`Assembler` class becomes a Lean function over an explicit state record.
Python exceptions become `Except String`.  The mutually recursive line
processing (`parse_line` / `parse_directive`, which re-enter each other for
`%include` and `%rep` replay, and which do not terminate on some inputs,
e.g. nested `%rep`) is given an explicit fuel parameter; every theorem below
operates far below the fuel bound, so the fuel case never fires in any
result proved here.
-/

/-- Characters Python `str.strip()` / `\s` treat as whitespace (ASCII). -/
def isPySpace (c : Char) : Bool :=
  c = ' ' || c = '\t' || c = '\n' || c = '\x0b' || c = '\x0c' || c = '\r'

/-- Characters matched by the regex class `\w` (ASCII). -/
def isWordChar (c : Char) : Bool :=
  c.isAlphanum || c = '_'

/-- Convenience: the character list of a string literal. -/
def cl (s : String) : List Char := s.data

/-- Python `str.strip()` with no argument: drop whitespace from both ends. -/
def pstrip (l : List Char) : List Char :=
  ((l.dropWhile isPySpace).reverse.dropWhile isPySpace).reverse

/-- Python `str.strip('"')`: drop every quote character from both ends. -/
def stripQuotes (l : List Char) : List Char :=
  ((l.dropWhile (· = '"')).reverse.dropWhile (· = '"')).reverse

/-- Python `str.split(sep)` with an explicit one-character separator:
splits at every occurrence and keeps empty pieces (`''.split(' ') = ['']`). -/
def pysplit (sep : Char) : List Char → List (List Char)
  | [] => [[]]
  | c :: cs =>
    if c = sep then [] :: pysplit sep cs
    else
      match pysplit sep cs with
      | [] => [[c]]
      | h :: t => (c :: h) :: t

/-- Python `str.splitlines()` for newline-separated text. -/
def pysplitlines (l : List Char) : List (List Char) :=
  if l = [] then []
  else
    let parts := l.splitOn '\n'
    if parts.getLast? = some [] then parts.dropLast else parts

/-- Python `str.lower()` (ASCII). -/
def lowerL (l : List Char) : List Char := l.map Char.toLower

/-- Python `str.upper()` (ASCII). -/
def upperL (l : List Char) : List Char := l.map Char.toUpper

/-- Python `any(c.isdigit() for c in s)` (ASCII decimal digits). -/
def hasDigit (l : List Char) : Bool := l.any Char.isDigit

/-- Value of a hexadecimal digit character, if it is one. -/
def hexDigitVal (c : Char) : Option Nat :=
  if '0' ≤ c && c ≤ '9' then some (c.toNat - 48)
  else if 'a' ≤ c && c ≤ 'f' then some (c.toNat - 87)
  else if 'A' ≤ c && c ≤ 'F' then some (c.toNat - 55)
  else none

/-- Value of a decimal digit character, if it is one. -/
def decDigitVal (c : Char) : Option Nat :=
  if '0' ≤ c && c ≤ '9' then some (c.toNat - 48) else none

/-- Digit run with single underscores allowed strictly between digits,
continuing an already-read first digit (CPython numeral grammar). -/
def digitsGo (dv : Char → Option Nat) (base : Nat) : Nat → List Char → Option Nat
  | acc, [] => some acc
  | acc, '_' :: c :: cs =>
    match dv c with
    | some v => digitsGo dv base (acc * base + v) cs
    | none => none
  | acc, c :: cs =>
    match dv c with
    | some v => digitsGo dv base (acc * base + v) cs
    | none => none

/-- Digit run: at least one digit, underscores only between digits. -/
def digitsRun (dv : Char → Option Nat) (base : Nat) : List Char → Option Nat
  | [] => none
  | c :: cs =>
    match dv c with
    | some v => digitsGo dv base v cs
    | none => none

/-- Python `int(s, 16)`: optional surrounding whitespace, optional sign,
optional `0x`/`0X` prefix (an underscore may directly follow the prefix),
then hex digits with underscores between digits.  `none` models the
`ValueError` raised on any other input. -/
def pyIntHex (s : List Char) : Option Int :=
  let t := pstrip s
  let signed : Bool × List Char :=
    match t with
    | '-' :: r => (true, r)
    | '+' :: r => (false, r)
    | _ => (false, t)
  let core : Option Nat :=
    match signed.2 with
    | '0' :: x :: r =>
      if x = 'x' || x = 'X' then
        match r with
        | '_' :: r2 => digitsRun hexDigitVal 16 r2
        | _ => digitsRun hexDigitVal 16 r
      else digitsRun hexDigitVal 16 signed.2
    | _ => digitsRun hexDigitVal 16 signed.2
  core.map (fun n => if signed.1 then -(n : Int) else (n : Int))

/-- Python `int(s)` (base 10), same surrounding grammar, no prefix. -/
def pyIntDec (s : List Char) : Option Int :=
  let t := pstrip s
  let signed : Bool × List Char :=
    match t with
    | '-' :: r => (true, r)
    | '+' :: r => (false, r)
    | _ => (false, t)
  (digitsRun decDigitVal 10 signed.2).map
    (fun n => if signed.1 then -(n : Int) else (n : Int))

/-- UTF-8 encoding of one code point (Python `str.encode()` per character). -/
def utf8Char (n : Nat) : List Nat :=
  if n < 0x80 then [n]
  else if n < 0x800 then [0xC0 + n / 64, 0x80 + n % 64]
  else if n < 0x10000 then
    [0xE0 + n / 4096, 0x80 + n / 64 % 64, 0x80 + n % 64]
  else
    [0xF0 + n / 262144, 0x80 + n / 4096 % 64, 0x80 + n / 64 % 64, 0x80 + n % 64]

/-- Python `str.encode()`: UTF-8 bytes of the text. -/
def utf8Bytes (l : List Char) : List Int :=
  ((l.map (fun c => utf8Char c.toNat)).flatten).map Int.ofNat

/-- Fuel-indexed kernel of `beBytes`; the fuel only bounds the recursion
depth (dividing by 256 reaches zero within `n` steps), so `beBytesAux n n`
computes the loop exactly. -/
def beBytesAux : Nat → Nat → List Nat
  | _, 0 => []
  | 0, _ + 1 => []
  | f + 1, n + 1 => beBytesAux f ((n + 1) / 256) ++ [(n + 1) % 256]

/-- The `while temp > 0` loop of `parse_instruction`: big-endian base-256
digits of a number, with no leading zero bytes (`beBytes 0 = []`). -/
def beBytes (n : Nat) : List Nat := beBytesAux n n

/-- Recompose a big-endian base-256 digit list into a number. -/
def beFold (l : List Nat) : Nat := l.foldl (fun a b => a * 256 + b) 0

/-- The optional `(?:\s+(.+))?` tail of the directive/instruction regexes,
applied to the text after the matched word: one-or-more whitespace then a
non-empty remainder (with the regex backtracking behaviour on an
all-whitespace tail). -/
def groupTwo (r : List Char) : Option (List Char) :=
  match r.head? with
  | none => none
  | some c =>
    if isPySpace c then
      let rest := r.dropWhile isPySpace
      if rest ≠ [] then some rest
      else
        match r with
        | _ :: _ :: _ => (r.getLast?).map (fun x => [x])
        | _ => none
    else none

/-- `re.match(r'%(\w+)(?:\s+(.+))?', line)`: directive word and operand. -/
def dirMatch (line : List Char) : Option (List Char × Option (List Char)) :=
  match line with
  | [] => none
  | c :: rest =>
    if c = '%' then
      let w := rest.takeWhile isWordChar
      if w = [] then none
      else some (w, groupTwo (rest.dropWhile isWordChar))
    else none

/-- `re.match(r'(\w+)(?:\s+(.+))?', line)`: mnemonic word and operand. -/
def instrMatch (line : List Char) : Option (List Char × Option (List Char)) :=
  let w := line.takeWhile isWordChar
  if w = [] then none
  else some (w, groupTwo (line.dropWhile isWordChar))

/-- `re.match(r'\w+\s+.+', line)` as a Boolean: the first pass's
"line has an operand" test. -/
def hasOperandShape (line : List Char) : Bool :=
  decide (line.takeWhile isWordChar ≠ []) &&
    (groupTwo (line.dropWhile isWordChar)).isSome

/-- `re.match(r'%string\s+"([^"]+)"', content)` for a data-section line whose
content starts with `%string`: the quoted text, if the pattern matches. -/
def stringPat (content : List Char) : Option (List Char) :=
  let r := content.drop 7
  match r.head? with
  | none => none
  | some c =>
    if isPySpace c then
      match r.dropWhile isPySpace with
      | '"' :: t =>
        let u := t.takeWhile (· ≠ '"')
        if u ≠ [] && t.dropWhile (· ≠ '"') ≠ [] then some u else none
      | _ => none
    else none

/-- `re.match(r'%bytes\s+(.+)', content)` for a data-section line whose
content starts with `%bytes`. -/
def bytesPat (content : List Char) : Option (List Char) :=
  groupTwo (content.drop 6)

/-- `[int(x, 16) for x in pieces]`: all pieces must parse. -/
def parseHexList (pieces : List (List Char)) : Option (List Int) :=
  pieces.mapM pyIntHex

/-- `normalize_op_name`: alias resolution over the lowercased name,
otherwise uppercase. -/
def normalize_op_name (opn : List Char) : List Char :=
  let l := lowerL opn
  if l = cl "jmp" then cl "JMP_ABS"
  else if l = cl "jeq" then cl "JMP_EQ"
  else if l = cl "jne" then cl "JMP_NE"
  else if l = cl "add" then cl "ADD"
  else if l = cl "sub" then cl "SUB"
  else if l = cl "mul" then cl "MUL"
  else if l = cl "div" then cl "DIV"
  else upperL opn

/-- The `Op` enumeration: opcode byte of each mnemonic
(`Op[name]`; `none` models the `KeyError`). -/
def opValue (s : List Char) : Option Nat :=
  if s = cl "NOP" then some 0x00
  else if s = cl "PUSHI" then some 0x01
  else if s = cl "PUSHSZ" then some 0x02
  else if s = cl "POPI" then some 0x03
  else if s = cl "POPSZ" then some 0x04
  else if s = cl "JMP_ABS" then some 0x08
  else if s = cl "JMP_REL" then some 0x09
  else if s = cl "JMP_EQ" then some 0x0A
  else if s = cl "JMP_NE" then some 0x0B
  else if s = cl "ADD" then some 0x0C
  else if s = cl "SUB" then some 0x0D
  else if s = cl "MUL" then some 0x0E
  else if s = cl "DIV" then some 0x0F
  else if s = cl "CALL" then some 0x10
  else if s = cl "CALLNAT" then some 0x11
  else if s = cl "RET" then some 0x12
  else if s = cl "HALT" then some 0xFF
  else none

/-- `Assembler` object state.  `fs` abstracts the file system used by
`%include` (path after quote-stripping, mapped to file content);
it corresponds to `root_dir` plus the files reachable from it. -/
structure St where
  in_rep : Bool
  rep_count : Int
  rep_buffer : List (List Char)
  labels : List (List Char × Nat)
  in_data_section : Bool
  data : List (List Char × List Int)
  output : List (List Int)
  fs : List (List Char × List Char)
deriving DecidableEq

/-- `Assembler.__init__`: fresh state over a given file system. -/
def initSt (fs : List (List Char × List Char)) : St :=
  ⟨false, 0, [], [], false, [], [], fs⟩

/-- `Assembler.parse_instruction`: encode one instruction line into its byte
fragment, given the label and data tables.  The returned list holds Python
ints (the flattening of the returned tuple, with `bytes` payloads spread);
range checking happens later in `bytes(flat_output)`. -/
def parse_instruction (labels : List (List Char × Nat))
    (dataTab : List (List Char × List Int)) (line : List Char) :
    Except String (List Int) :=
  match instrMatch line with
  | none => .error ("Invalid instruction: " ++ String.mk line)
  | some (g1, g2) =>
    let op_name := upperL g1
    match opValue (normalize_op_name op_name) with
    | none => .error ("KeyError: " ++ String.mk (normalize_op_name op_name))
    | some opv =>
      if lowerL op_name = cl "jmp" then
        match g2 with
        | none => .error "Invalid operand: None"
        | some o =>
          match labels.lookup o with
          | some a =>
            if (a : Nat) = 0 then .ok [Int.ofNat opv, 0]
            else .ok (Int.ofNat opv :: (beBytes a).map Int.ofNat ++ [0])
          | none =>
            if hasDigit o then
              match pyIntHex o with
              | none =>
                .error ("invalid literal for int with base 16: " ++ String.mk o)
              | some v =>
                if v = 0 then .ok [Int.ofNat opv, 0]
                else .ok (Int.ofNat opv :: (beBytes v.toNat).map Int.ofNat ++ [0])
            else .error ("Invalid operand: " ++ String.mk o)
      else
        match g2 with
        | none => .ok [Int.ofNat opv]
        | some o =>
          if hasDigit o then
            match pyIntHex o with
            | none =>
              .error ("invalid literal for int with base 16: " ++ String.mk o)
            | some v => .ok [Int.ofNat opv, v]
          else if o.head? = some '"' && o.getLast? = some '"' then
            .ok (Int.ofNat opv :: utf8Bytes (stripQuotes o) ++ [0, 0])
          else if o.head? = some '$' then
            match dataTab.lookup (o.drop 1) with
            | some vals => .ok (Int.ofNat opv :: vals)
            | none => .error ("Undefined label: " ++ String.mk (o.drop 1))
          else .ok (Int.ofNat opv :: utf8Bytes o ++ [0])

/-- The unused `Assembler.define_data_label` method: reject a duplicate
data label, otherwise insert. -/
def define_data_label (dataTab : List (List Char × List Int))
    (lbl : List Char) (v : List Int) :
    Except String (List (List Char × List Int)) :=
  match dataTab.lookup lbl with
  | some _ => .error ("Duplicate data label: " ++ String.mk lbl)
  | none => .ok ((lbl, v) :: dataTab)

/-- The data-section branch of `parse_line` (a non-directive line seen while
`in_data_section` holds): `name: content` lines populate the data table by
direct dictionary assignment (duplicates overwrite silently); a failing hex
literal in an explicit `%bytes` content is a fatal error, every other
unrecognised content is skipped. -/
def dataSectionLine (s : St) (line : List Char) : Except String St :=
  if line.contains ':' then
    let name := pstrip (line.takeWhile (· ≠ ':'))
    let afterColon := (line.dropWhile (· ≠ ':')).drop 1
    let content := pstrip (afterColon.takeWhile (· ≠ ':'))
    if (cl "%string").isPrefixOf content then
      match stringPat content with
      | some sval => .ok { s with data := (name, utf8Bytes sval ++ [0]) :: s.data }
      | none => .ok s
    else if (cl "%bytes").isPrefixOf content then
      match bytesPat content with
      | none => .ok s
      | some o =>
        match parseHexList (pysplit ' ' o) with
        | none => .error ("invalid literal for int with base 16: " ++ String.mk o)
        | some vals => .ok { s with data := (name, vals) :: s.data }
    else
      match parseHexList (pysplit ' ' content) with
      | none => .ok s
      | some vals => .ok { s with data := (name, vals) :: s.data }
  else .ok s

/-- Number of iterations of `for _ in range(count)`. -/
def iterCount (n : Int) : Nat := n.toNat

/-- Error returned only when the fuel bound is reached; models Python
non-termination / `RecursionError` and never occurs in the results below. -/
def fuelMsg : String := "RECURSION LIMIT"

mutual

/-- `Assembler.parse_line`: dispatch one raw source line against the
current state (second pass). -/
def parse_line : Nat → St → List Char → Except String St
  | 0, _, _ => .error fuelMsg
  | fuel + 1, s, rawLine =>
    let line := pstrip rawLine
    if (cl "//").isPrefixOf line || line = [] then .ok s
    else if s.in_rep && !((cl "%endrep").isPrefixOf line) then
      .ok { s with rep_buffer := s.rep_buffer ++ [line] }
    else if (cl "%").isPrefixOf line then parse_directive fuel s line
    else if [':'].isSuffixOf line then .ok s
    else if s.in_data_section && !((cl "%enddata").isPrefixOf line) then
      dataSectionLine s line
    else
      match parse_instruction s.labels s.data line with
      | .ok frag => .ok { s with output := s.output ++ [frag] }
      | .error e => .error e

/-- `Assembler.parse_directive`: handle a `%...` line. -/
def parse_directive : Nat → St → List Char → Except String St
  | 0, _, _ => .error fuelMsg
  | fuel + 1, s, line =>
    match dirMatch line with
    | none => .error ("Invalid directive: " ++ String.mk line)
    | some (d, opnd) =>
      let dl := lowerL d
      if dl = cl "include" then
        match opnd with
        | none => .error "AttributeError: NoneType has no strip"
        | some o =>
          let path := stripQuotes o
          match s.fs.lookup path with
          | none => .error ("No such file: " ++ String.mk path)
          | some content => includeLoop fuel s (pysplitlines content)
      else if dl = cl "rep" then
        match opnd with
        | none => .error "TypeError: int of NoneType"
        | some o =>
          match pyIntDec o with
          | none => .error ("invalid literal for int with base 10: " ++ String.mk o)
          | some n => .ok { s with in_rep := true, rep_count := n }
      else if dl = cl "endrep" then
        match replayOuter fuel { s with in_rep := false } (iterCount s.rep_count) with
        | .error e => .error e
        | .ok s2 => .ok { s2 with rep_buffer := [], rep_count := 0 }
      else if dl = cl "data" then .ok { s with in_data_section := true }
      else if dl = cl "enddata" then .ok { s with in_data_section := false }
      else if dl = cl "bytes" then
        match opnd with
        | none => .error "AttributeError: NoneType has no split"
        | some o =>
          match parseHexList (pysplit ' ' o) with
          | none => .error ("invalid literal for int with base 16: " ++ String.mk o)
          | some vals => .ok { s with output := s.output ++ [vals] }
      else if dl = cl "string" then
        match opnd with
        | none => .error "AttributeError: NoneType has no strip"
        | some o => .ok { s with output := s.output ++ [utf8Bytes (stripQuotes o) ++ [0]] }
      else .ok s

/-- The `for _ in range(self.rep_count)` loop of `%endrep`. -/
def replayOuter : Nat → St → Nat → Except String St
  | 0, _, _ => .error fuelMsg
  | _ + 1, s, 0 => .ok s
  | fuel + 1, s, k + 1 =>
    match replayInner fuel s 0 with
    | .error e => .error e
    | .ok s2 => replayOuter fuel s2 k

/-- The `for rep_line in self.rep_buffer` loop: iterates over the live
buffer by index (a replayed line may itself append to the buffer). -/
def replayInner : Nat → St → Nat → Except String St
  | 0, _, _ => .error fuelMsg
  | fuel + 1, s, i =>
    match s.rep_buffer.get? i with
    | none => .ok s
    | some line =>
      match parse_line fuel s line with
      | .error e => .error e
      | .ok s2 => replayInner fuel s2 (i + 1)

/-- The `for inc_line in included_code.splitlines()` loop of `%include`. -/
def includeLoop : Nat → St → List (List Char) → Except String St
  | 0, _, _ => .error fuelMsg
  | _ + 1, s, [] => .ok s
  | fuel + 1, s, l :: ls =>
    match parse_line fuel s l with
    | .error e => .error e
    | .ok s2 => includeLoop fuel s2 ls

end

/-- First pass of `Assembler.assemble`: walk the raw (unexpanded) lines,
threading the label table, the running address and the in-data flag. -/
def pass1Go : List (List Char) → List (List Char × Nat) → Nat → Bool →
    List (List Char × Nat) × Nat × Bool
  | [], lbls, addr, ind => (lbls, addr, ind)
  | raw :: ls, lbls, addr, ind =>
    let line := pstrip raw
    if (cl "//").isPrefixOf line || line = [] then pass1Go ls lbls addr ind
    else if (cl "%").isPrefixOf line then
      match dirMatch line with
      | some (d, o) =>
        let dl := lowerL d
        if dl = cl "data" then pass1Go ls lbls addr true
        else if dl = cl "enddata" then pass1Go ls lbls addr false
        else if dl = cl "bytes" then
          match o with
          | some oo => pass1Go ls lbls (addr + (pysplit ' ' oo).length) ind
          | none => pass1Go ls lbls addr ind
        else pass1Go ls lbls addr ind
      | none => pass1Go ls lbls addr ind
    else if [':'].isSuffixOf line then
      pass1Go ls ((line.dropLast, addr) :: lbls) addr ind
    else if ind && line.contains ':' then
      pass1Go ls ((pstrip (line.takeWhile (· ≠ ':')), addr) :: lbls) addr ind
    else if ind then pass1Go ls lbls addr ind
    else if hasOperandShape line then
      if line.head? = some 'j' then pass1Go ls lbls (addr + 4) ind
      else pass1Go ls lbls (addr + 2) ind
    else pass1Go ls lbls (addr + 1) ind

/-- The label table produced by the first pass. -/
def pass1 (lines : List (List Char)) : List (List Char × Nat) :=
  (pass1Go lines [] 0 false).1

/-- Second pass: run `parse_line` over every line, aborting on error.
Each top-level call starts from a fresh Python call stack, hence full fuel. -/
def pass2 (fuel : Nat) : St → List (List Char) → Except String St
  | s, [] => .ok s
  | s, l :: ls =>
    match parse_line fuel s l with
    | .error e => .error e
    | .ok s2 => pass2 fuel s2 ls

/-- The output flattening plus the final `bytes(flat_output)` call, which
rejects any value outside 0..255. -/
def flattenOut (frags : List (List Int)) : Except String (List Nat) :=
  let flat := frags.flatten
  if flat.all (fun b => decide (0 ≤ b) && decide (b < 256)) then
    .ok (flat.map Int.toNat)
  else .error "bytes must be in range(0, 256)"

/-- `Assembler.assemble` over a pre-split line list, with explicit fuel:
reset the label, output and data tables (and nothing else), run both
passes, and flatten.  Returns the final object state with the bytecode. -/
def assembleWith (fuel : Nat) (s : St) (lines : List (List Char)) :
    Except String (St × List Nat) :=
  let s1 := { s with labels := pass1 lines, output := [], data := [] }
  match pass2 fuel s1 lines with
  | .error e => .error e
  | .ok s2 =>
    match flattenOut s2.output with
    | .error e => .error e
    | .ok bs => .ok (s2, bs)

/-- Fuel bound used for the program-level entry points; all sources
appearing in the theorems below stay far under it. -/
def FUEL : Nat := 100

/-- `Assembler.assemble` on a source string. -/
def assembleRun (s : St) (code : String) : Except String (St × List Nat) :=
  assembleWith FUEL s (pysplitlines code.data)

/-- Assembling a source string on a freshly constructed `Assembler`
(no include files), keeping only the produced bytecode. -/
def assembleCode (code : String) : Except String (List Nat) :=
  (assembleRun (initSt []) code).map (fun p => p.2)

/-- Decidable equality of run results, for the concrete evaluations below. -/
instance exceptDecEq {e a : Type} [DecidableEq e] [DecidableEq a] :
    DecidableEq (Except e a) :=
  fun x y =>
  match x, y with
  | .ok u, .ok v => decidable_of_iff (u = v) (by simp)
  | .error u, .error v => decidable_of_iff (u = v) (by simp)
  | .ok _, .error _ => isFalse (fun h => Except.noConfusion h)
  | .error _, .ok _ => isFalse (fun h => Except.noConfusion h)

/-! ## Helper lemmas about the encoding primitives -/

lemma beBytesAux_adequate (n : Nat) : ∀ f g, n ≤ f → n ≤ g →
    beBytesAux f n = beBytesAux g n := by
  induction n using Nat.strong_induction_on with
  | _ n ih =>
    intro f g hf hg
    match n, f, g with
    | 0, f, g => cases f <;> cases g <;> rfl
    | m + 1, f + 1, g + 1 =>
      have hdiv : (m + 1) / 256 < m + 1 := Nat.div_lt_self (Nat.succ_pos m) (by norm_num)
      have h1 : (m + 1) / 256 ≤ f := by omega
      have h2 : (m + 1) / 256 ≤ g := by omega
      simp only [beBytesAux]
      rw [ih ((m + 1) / 256) hdiv f g h1 h2]

/-- The recursion equation of the `while temp > 0` loop. -/
lemma beBytes_eq (n : Nat) (h : n ≠ 0) :
    beBytes n = beBytes (n / 256) ++ [n % 256] := by
  match n with
  | m + 1 =>
    show beBytesAux (m + 1) (m + 1) = _
    have hdiv : (m + 1) / 256 < m + 1 := Nat.div_lt_self (Nat.succ_pos m) (by norm_num)
    simp only [beBytesAux]
    rw [beBytesAux_adequate ((m + 1) / 256) m ((m + 1) / 256) (by omega) (by omega)]
    rfl

lemma beBytes_zero : beBytes 0 = [] := rfl

lemma beBytes_ne_nil (n : Nat) (h : n ≠ 0) : beBytes n ≠ [] := by
  rw [beBytes_eq n h]
  simp

lemma beBytes_fold (n : Nat) : beFold (beBytes n) = n := by
  induction n using Nat.strong_induction_on with
  | _ n ih =>
    by_cases h : n = 0
    · subst h
      simp [beBytes_zero, beFold]
    · rw [beBytes_eq n h]
      have ihh := ih (n / 256) (Nat.div_lt_self (Nat.pos_of_ne_zero h) (by norm_num))
      simp only [beFold, List.foldl_append, List.foldl_cons, List.foldl_nil] at ihh ⊢
      rw [ihh]
      omega

lemma beBytes_lt (n : Nat) : ∀ b ∈ beBytes n, b < 256 := by
  induction n using Nat.strong_induction_on with
  | _ n ih =>
    by_cases h : n = 0
    · subst h
      simp [beBytes_zero]
    · rw [beBytes_eq n h]
      intro b hb
      rcases List.mem_append.mp hb with h1 | h2
      · exact ih (n / 256) (Nat.div_lt_self (Nat.pos_of_ne_zero h) (by norm_num)) b h1
      · rcases List.mem_singleton.mp h2 with rfl
        exact Nat.mod_lt _ (by norm_num)

lemma beBytes_no_lead (n : Nat) : ∀ t, beBytes n ≠ 0 :: t := by
  induction n using Nat.strong_induction_on with
  | _ n ih =>
    intro t
    by_cases h : n = 0
    · subst h
      simp [beBytes_zero]
    · rw [beBytes_eq n h]
      by_cases h2 : n / 256 = 0
      · rw [h2, beBytes_zero]
        have hlt : n < 256 := by omega
        have : n % 256 = n := Nat.mod_eq_of_lt hlt
        simp [this, h]
      · cases hb : beBytes (n / 256) with
        | nil => exact absurd hb (beBytes_ne_nil _ h2)
        | cons a l =>
          intro heq
          simp only [List.cons_append, List.cons.injEq] at heq
          rcases heq with ⟨rfl, _⟩
          exact ih (n / 256) (Nat.div_lt_self (Nat.pos_of_ne_zero h) (by norm_num)) l hb

/-! ## Helper lemmas about prefixes and the first pass -/

lemma prefix_pct_of_endrep (X : List Char) (h : (cl "%").isPrefixOf X = false) :
    (cl "%endrep").isPrefixOf X = false := by
  by_contra hc
  rw [Bool.not_eq_false, List.isPrefixOf_iff_prefix] at hc
  have h1 : (cl "%") <+: (cl "%endrep") := ⟨cl "endrep", rfl⟩
  have := h1.trans hc
  rw [← List.isPrefixOf_iff_prefix] at this
  rw [this] at h
  exact Bool.noConfusion h

lemma prefix_pct_of_enddata (X : List Char) (h : (cl "%").isPrefixOf X = false) :
    (cl "%enddata").isPrefixOf X = false := by
  by_contra hc
  rw [Bool.not_eq_false, List.isPrefixOf_iff_prefix] at hc
  have h1 : (cl "%") <+: (cl "%enddata") := ⟨cl "enddata", rfl⟩
  have := h1.trans hc
  rw [← List.isPrefixOf_iff_prefix] at this
  rw [this] at h
  exact Bool.noConfusion h

/-- A first-pass step on a directive line whose directive is none of
`data` / `enddata` / `bytes`: the table, counter and flag are unchanged. -/
lemma pass1Go_directive_skip (line d : List Char) (o : Option (List Char))
    (ls : List (List Char)) (lbls : List (List Char × Nat)) (addr : Nat) (ind : Bool)
    (hd : dirMatch (pstrip line) = some (d, o))
    (h1 : lowerL d ≠ cl "data") (h2 : lowerL d ≠ cl "enddata")
    (h3 : lowerL d ≠ cl "bytes") :
    pass1Go (line :: ls) lbls addr ind = pass1Go ls lbls addr ind := by
  obtain ⟨c, rest, hline⟩ : ∃ c rest, pstrip line = c :: rest := by
    cases hpl : pstrip line with
    | nil => rw [hpl] at hd; exact absurd hd (by simp [dirMatch])
    | cons c r => exact ⟨c, r, rfl⟩
  have hc : c = '%' := by
    rw [hline] at hd
    by_contra hcc
    simp [dirMatch, hcc] at hd
  subst hc
  have hcmt : (cl "//").isPrefixOf ('%' :: rest) = false := rfl
  have hpct : (cl "%").isPrefixOf ('%' :: rest) = true := by
    rw [List.isPrefixOf_iff_prefix]
    exact ⟨rest, rfl⟩
  rw [hline] at hd
  simp only [pass1Go, hline, hcmt, hpct, hd]
  simp [h1, h2, h3]

/-- A first-pass step on an instruction line (not a comment, directive or
label, outside the data section): only the address counter moves, by the
static size heuristic actually implemented. -/
lemma pass1Go_instr_line (line : List Char) (ls : List (List Char))
    (lbls : List (List Char × Nat)) (addr : Nat)
    (hstrip : pstrip line = line) (hne : line ≠ [])
    (hnc : (cl "//").isPrefixOf line = false)
    (hnd : (cl "%").isPrefixOf line = false)
    (hnl : [':'].isSuffixOf line = false) :
    pass1Go (line :: ls) lbls addr false =
      pass1Go ls lbls
        (addr + (if hasOperandShape line then
                   (if line.head? = some 'j' then 4 else 2) else 1)) false := by
  simp only [pass1Go, hstrip]
  simp [hnc, hne, hnd, hnl]
  by_cases hop : hasOperandShape line = true
  · simp only [hop, if_true]
    by_cases hj : line.head? = some 'j'
    · simp [hj]
    · simp [hj]
  · simp only [Bool.not_eq_true] at hop
    simp [hop]

/-! ## Stepping lemmas for the second pass -/

/-- `parse_line` on an instruction line (not a comment, directive or label)
with replay and data modes off: encode it and append the fragment. -/
lemma parse_line_instr_step (f : Nat) (s : St) (X : List Char)
    (hstrip : pstrip X = X) (hne : X ≠ [])
    (hnc : (cl "//").isPrefixOf X = false)
    (hnd : (cl "%").isPrefixOf X = false)
    (hnl : [':'].isSuffixOf X = false)
    (hrep : s.in_rep = false) (hdata : s.in_data_section = false) :
    parse_line (f + 1) s X =
      match parse_instruction s.labels s.data X with
      | .ok frag => .ok { s with output := s.output ++ [frag] }
      | .error e => .error e := by
  simp only [parse_line, hstrip]
  simp [hnc, hne, hnd, hnl, hrep, hdata]

/-- `parse_line` while `in_rep` holds, on a line that does not start with
`%endrep`: the line is buffered. -/
lemma parse_line_buffer_step (f : Nat) (s : St) (X : List Char)
    (hstrip : pstrip X = X) (hne : X ≠ [])
    (hnc : (cl "//").isPrefixOf X = false)
    (hnd : (cl "%").isPrefixOf X = false)
    (hrep : s.in_rep = true) :
    parse_line (f + 1) s X = .ok { s with rep_buffer := s.rep_buffer ++ [X] } := by
  have hend := prefix_pct_of_endrep X hnd
  simp only [parse_line, hstrip]
  simp [hnc, hne, hrep, hend]

/-- `parse_line` on `%rep 3` with replay mode off: enter replay mode. -/
lemma parse_line_rep3 (f : Nat) (s : St) (hrep : s.in_rep = false) :
    parse_line (f + 2) s (cl "%rep 3") =
      .ok { s with in_rep := true, rep_count := 3 } := by
  cases s with
  | mk ir rc rb lb ind da op fss =>
    cases ir
    · rfl
    · exact Bool.noConfusion hrep
lemma replayOuter_zero (f : Nat) (s : St) : replayOuter (f + 1) s 0 = .ok s := by
  rw [replayOuter]

lemma replayOuter_succ_ok (f : Nat) (s : St) (k : Nat) (r : St)
    (h : replayInner f s 0 = .ok r) :
    replayOuter (f + 1) s (k + 1) = replayOuter f r k := by
  simp only [replayOuter, h]

lemma replayOuter_succ_err (f : Nat) (s : St) (k : Nat) (e : String)
    (h : replayInner f s 0 = .error e) :
    replayOuter (f + 1) s (k + 1) = .error e := by
  simp only [replayOuter, h]

lemma replayInner_none (f : Nat) (s : St) (i : Nat)
    (hget : s.rep_buffer.get? i = none) :
    replayInner (f + 1) s i = .ok s := by
  simp only [replayInner, hget]

lemma replayInner_ok (f : Nat) (s : St) (i : Nat) (line : List Char) (r : St)
    (hget : s.rep_buffer.get? i = some line)
    (hpl : parse_line f s line = .ok r) :
    replayInner (f + 1) s i = replayInner f r (i + 1) := by
  simp only [replayInner, hget, hpl]

lemma replayInner_err (f : Nat) (s : St) (i : Nat) (line : List Char) (e : String)
    (hget : s.rep_buffer.get? i = some line)
    (hpl : parse_line f s line = .error e) :
    replayInner (f + 1) s i = .error e := by
  simp only [replayInner, hget, hpl]

lemma parse_line_endrep_ok (f : Nat) (s : St) (r : St)
    (h : replayOuter f { s with in_rep := false } (iterCount s.rep_count) = .ok r) :
    parse_line (f + 1 + 1) s (cl "%endrep") =
      .ok { r with rep_buffer := [], rep_count := 0 } := by
  simp only [parse_line, parse_directive]
  simp [cl, pstrip, dirMatch, groupTwo, isWordChar, isPySpace, lowerL, h]

lemma parse_line_endrep_err (f : Nat) (s : St) (e : String)
    (h : replayOuter f { s with in_rep := false } (iterCount s.rep_count) = .error e) :
    parse_line (f + 1 + 1) s (cl "%endrep") = .error e := by
  simp only [parse_line, parse_directive]
  simp [cl, pstrip, dirMatch, groupTwo, isWordChar, isPySpace, lowerL, h]

/-- `parse_line` on `%endrep` when the replay buffer holds one instruction
line `X` and the pending count is 3: `X` is encoded and emitted three times
(or the first failure aborts), and the buffer and count are cleared. -/
lemma parse_line_endrep3 (f : Nat) (lb : List (List Char × Nat))
    (fss : List (List Char × List Char)) (X : List Char)
    (hstrip : pstrip X = X) (hne : X ≠ [])
    (hnc : (cl "//").isPrefixOf X = false)
    (hnd : (cl "%").isPrefixOf X = false)
    (hnl : [':'].isSuffixOf X = false) :
    parse_line (f + 1 + 1 + 1 + 1 + 1 + 1 + 1)
        ⟨true, 3, [X], lb, false, [], [], fss⟩ (cl "%endrep") =
      match parse_instruction lb [] X with
      | .ok frag => .ok ⟨false, 0, [], lb, false, [], [frag, frag, frag], fss⟩
      | .error e => .error e := by
  cases hpi : parse_instruction lb [] X with
  | error e =>
    have ip1 : parse_line (f + 1 + 1 + 1) ⟨false, 3, [X], lb, false, [], [], fss⟩ X =
        .error e := by
      have h := parse_line_instr_step (f + 1 + 1)
        ⟨false, 3, [X], lb, false, [], [], fss⟩ X hstrip hne hnc hnd hnl rfl rfl
      rw [hpi] at h
      exact h
    have r1 : replayInner (f + 1 + 1 + 1 + 1) ⟨false, 3, [X], lb, false, [], [], fss⟩ 0 =
        .error e := replayInner_err _ _ _ X e rfl ip1
    have o1 : replayOuter (f + 1 + 1 + 1 + 1 + 1)
        ⟨false, 3, [X], lb, false, [], [], fss⟩ 3 = .error e :=
      replayOuter_succ_err _ _ 2 e r1
    exact parse_line_endrep_err (f + 1 + 1 + 1 + 1 + 1)
      ⟨true, 3, [X], lb, false, [], [], fss⟩ e o1
  | ok frag =>
    have ip1 : parse_line (f + 1 + 1 + 1) ⟨false, 3, [X], lb, false, [], [], fss⟩ X =
        .ok ⟨false, 3, [X], lb, false, [], [frag], fss⟩ := by
      have h := parse_line_instr_step (f + 1 + 1)
        ⟨false, 3, [X], lb, false, [], [], fss⟩ X hstrip hne hnc hnd hnl rfl rfl
      rw [hpi] at h
      exact h
    have ip2 : parse_line (f + 1 + 1) ⟨false, 3, [X], lb, false, [], [frag], fss⟩ X =
        .ok ⟨false, 3, [X], lb, false, [], [frag, frag], fss⟩ := by
      have h := parse_line_instr_step (f + 1)
        ⟨false, 3, [X], lb, false, [], [frag], fss⟩ X hstrip hne hnc hnd hnl rfl rfl
      rw [hpi] at h
      exact h
    have ip3 : parse_line (f + 1) ⟨false, 3, [X], lb, false, [], [frag, frag], fss⟩ X =
        .ok ⟨false, 3, [X], lb, false, [], [frag, frag, frag], fss⟩ := by
      have h := parse_line_instr_step f
        ⟨false, 3, [X], lb, false, [], [frag, frag], fss⟩ X hstrip hne hnc hnd hnl rfl rfl
      rw [hpi] at h
      exact h
    have r1 : replayInner (f + 1 + 1 + 1 + 1) ⟨false, 3, [X], lb, false, [], [], fss⟩ 0 =
        .ok ⟨false, 3, [X], lb, false, [], [frag], fss⟩ :=
      (replayInner_ok (f + 1 + 1 + 1) ⟨false, 3, [X], lb, false, [], [], fss⟩ 0 X
        ⟨false, 3, [X], lb, false, [], [frag], fss⟩ rfl ip1).trans
        (replayInner_none (f + 1 + 1) ⟨false, 3, [X], lb, false, [], [frag], fss⟩ 1 rfl)
    have r2 : replayInner (f + 1 + 1 + 1) ⟨false, 3, [X], lb, false, [], [frag], fss⟩ 0 =
        .ok ⟨false, 3, [X], lb, false, [], [frag, frag], fss⟩ :=
      (replayInner_ok (f + 1 + 1) ⟨false, 3, [X], lb, false, [], [frag], fss⟩ 0 X
        ⟨false, 3, [X], lb, false, [], [frag, frag], fss⟩ rfl ip2).trans
        (replayInner_none (f + 1) ⟨false, 3, [X], lb, false, [], [frag, frag], fss⟩ 1 rfl)
    have r3 : replayInner (f + 1 + 1) ⟨false, 3, [X], lb, false, [], [frag, frag], fss⟩ 0 =
        .ok ⟨false, 3, [X], lb, false, [], [frag, frag, frag], fss⟩ :=
      (replayInner_ok (f + 1) ⟨false, 3, [X], lb, false, [], [frag, frag], fss⟩ 0 X
        ⟨false, 3, [X], lb, false, [], [frag, frag, frag], fss⟩ rfl ip3).trans
        (replayInner_none f ⟨false, 3, [X], lb, false, [], [frag, frag, frag], fss⟩ 1 rfl)
    have o1 : replayOuter (f + 1 + 1 + 1 + 1 + 1)
        ⟨false, 3, [X], lb, false, [], [], fss⟩ 3 =
        .ok ⟨false, 3, [X], lb, false, [], [frag, frag, frag], fss⟩ := by
      have s1 := replayOuter_succ_ok (f + 1 + 1 + 1 + 1)
        ⟨false, 3, [X], lb, false, [], [], fss⟩ 2 _ r1
      have s2 := replayOuter_succ_ok (f + 1 + 1 + 1)
        ⟨false, 3, [X], lb, false, [], [frag], fss⟩ 1 _ r2
      have s3 := replayOuter_succ_ok (f + 1 + 1)
        ⟨false, 3, [X], lb, false, [], [frag, frag], fss⟩ 0 _ r3
      have s4 := replayOuter_zero (f + 1)
        (⟨false, 3, [X], lb, false, [], [frag, frag, frag], fss⟩ : St)
      exact (((s1.trans s2).trans s3).trans s4)
    exact parse_line_endrep_ok (f + 1 + 1 + 1 + 1 + 1)
      ⟨true, 3, [X], lb, false, [], [], fss⟩ _ o1

/-- C7: wrapping a plain instruction line X in a three-fold repetition,
`%rep 3` / X / `%endrep`, assembles to exactly the same result as writing
X three times in sequence (for any plain instruction line: stripped,
non-empty, not a comment, not a directive, not a label). -/
theorem c7_rep_equiv (fss : List (List Char × List Char)) (X : List Char)
    (hstrip : pstrip X = X) (hne : X ≠ [])
    (hnc : (cl "//").isPrefixOf X = false)
    (hnd : (cl "%").isPrefixOf X = false)
    (hnl : [':'].isSuffixOf X = false) :
    assembleWith FUEL (initSt fss) [cl "%rep 3", X, cl "%endrep"] =
      assembleWith FUEL (initSt fss) [X, X, X] := by
  have hp1L : pass1 [cl "%rep 3", X, cl "%endrep"] = [] := by
    unfold pass1
    rw [pass1Go_directive_skip (cl "%rep 3") (cl "rep") (some (cl "3")) _ _ _ _ rfl
      (by decide) (by decide) (by decide)]
    rw [pass1Go_instr_line X _ _ _ hstrip hne hnc hnd hnl]
    rw [pass1Go_directive_skip (cl "%endrep") (cl "endrep") none _ _ _ _ rfl
      (by decide) (by decide) (by decide)]
    rfl
  have hp1R : pass1 [X, X, X] = [] := by
    unfold pass1
    rw [pass1Go_instr_line X _ _ _ hstrip hne hnc hnd hnl]
    rw [pass1Go_instr_line X _ _ _ hstrip hne hnc hnd hnl]
    rw [pass1Go_instr_line X _ _ _ hstrip hne hnc hnd hnl]
    rfl
  simp only [assembleWith]
  rw [hp1L, hp1R]
  have hs : { initSt fss with labels := [], output := [], data := [] } = initSt fss := rfl
  rw [hs]
  have L1 : parse_line FUEL (initSt fss) (cl "%rep 3") =
      .ok (⟨true, 3, [], [], false, [], [], fss⟩ : St) :=
    parse_line_rep3 98 (initSt fss) rfl
  have L2 : parse_line FUEL (⟨true, 3, [], [], false, [], [], fss⟩ : St) X =
      .ok (⟨true, 3, [X], [], false, [], [], fss⟩ : St) :=
    parse_line_buffer_step 99 ⟨true, 3, [], [], false, [], [], fss⟩ X hstrip hne hnc hnd rfl
  cases hpi : parse_instruction [] [] X with
  | error e =>
    have L3 : parse_line FUEL (⟨true, 3, [X], [], false, [], [], fss⟩ : St)
        (cl "%endrep") = .error e := by
      have h := parse_line_endrep3 93 [] fss X hstrip hne hnc hnd hnl
      rw [hpi] at h
      exact h
    have R1 : parse_line FUEL (initSt fss) X = .error e := by
      have h := parse_line_instr_step 99 (⟨false, 0, [], [], false, [], [], fss⟩ : St) X
        hstrip hne hnc hnd hnl rfl rfl
      rw [hpi] at h
      exact h
    simp only [pass2, L1, L2, L3, R1]
  | ok frag =>
    have L3 : parse_line FUEL (⟨true, 3, [X], [], false, [], [], fss⟩ : St)
        (cl "%endrep") =
        .ok (⟨false, 0, [], [], false, [], [frag, frag, frag], fss⟩ : St) := by
      have h := parse_line_endrep3 93 [] fss X hstrip hne hnc hnd hnl
      rw [hpi] at h
      exact h
    have R1 : parse_line FUEL (initSt fss) X =
        .ok (⟨false, 0, [], [], false, [], [frag], fss⟩ : St) := by
      have h := parse_line_instr_step 99 (⟨false, 0, [], [], false, [], [], fss⟩ : St) X
        hstrip hne hnc hnd hnl rfl rfl
      rw [hpi] at h
      exact h
    have R2 : parse_line FUEL (⟨false, 0, [], [], false, [], [frag], fss⟩ : St) X =
        .ok (⟨false, 0, [], [], false, [], [frag, frag], fss⟩ : St) := by
      have h := parse_line_instr_step 99
        (⟨false, 0, [], [], false, [], [frag], fss⟩ : St) X hstrip hne hnc hnd hnl rfl rfl
      rw [hpi] at h
      exact h
    have R3 : parse_line FUEL (⟨false, 0, [], [], false, [], [frag, frag], fss⟩ : St) X =
        .ok (⟨false, 0, [], [], false, [], [frag, frag, frag], fss⟩ : St) := by
      have h := parse_line_instr_step 99
        (⟨false, 0, [], [], false, [], [frag, frag], fss⟩ : St) X hstrip hne hnc hnd hnl rfl rfl
      rw [hpi] at h
      exact h
    simp only [pass2, L1, L2, L3, R1, R2, R3]

/-- Closed instance of the repetition equivalence for `pushi 7`. -/
theorem c7_rep_equiv_witness :
    assembleWith FUEL (initSt []) [cl "%rep 3", cl "pushi 7", cl "%endrep"] =
      assembleWith FUEL (initSt []) [cl "pushi 7", cl "pushi 7", cl "pushi 7"] :=
  c7_rep_equiv [] (cl "pushi 7") rfl (by decide) rfl rfl rfl

/-! ## Claims about the worked example and the jump encoding -/

/-- C1 counterexample: the six-line worked example does not assemble to the
ten-byte sequence 01 04 01 02 0C 03 08 08 08 FF claimed by the spec (the
jump encodings carry a terminating zero byte each). -/
theorem c1_counterexample :
    assembleCode "pushi 4\npushi 2\nadd\npopi\njmp 0x08\njmp 0xFF" ≠
      .ok [0x01, 0x04, 0x01, 0x02, 0x0C, 0x03, 0x08, 0x08, 0x08, 0xFF] := by
  decide

/-- C1 amended: the six-line worked example assembles to the twelve-byte
sequence 01 04 01 02 0C 03 08 08 00 08 FF 00, with one terminating zero
byte after each encoded jump address. -/
theorem c1_amended_bytes :
    assembleCode "pushi 4\npushi 2\nadd\npopi\njmp 0x08\njmp 0xFF" =
      .ok [0x01, 0x04, 0x01, 0x02, 0x0C, 0x03, 0x08, 0x08, 0x00, 0x08, 0xFF, 0x00] := by
  decide

/-- C2 counterexample: `jeq` (a jump-family mnemonic) is not encoded by the
jump rule: `jeq 0x08` emits opcode 0x0A and the raw operand byte 0x08 with
no terminating zero byte, instead of the claimed 0A 08 00. -/
theorem c2_counterexample :
    assembleCode "jeq 0x08" = .ok [0x0A, 0x08]
    ∧ (Except.ok [0x0A, 0x08] : Except String (List Nat)) ≠ .ok [0x0A, 0x08, 0x00] := by
  constructor
  · decide
  · decide

/-- C2 amended: only the mnemonic spelled `jmp` (case-insensitively) takes
the jump path.  For it, the operand is resolved first as a known label,
otherwise as a base-16 integer when it contains a digit, otherwise the run
aborts; the resolved non-negative address is emitted as its minimal
big-endian byte sequence (no leading zero byte, all bytes below 256,
recomposing to the address) followed by one terminating zero byte, so
address zero emits opcode plus 0x00 only. -/
theorem c2_amended_jmp_encoding
    (labels : List (List Char × Nat)) (dataTab : List (List Char × List Int))
    (line m o : List Char)
    (hm : instrMatch line = some (m, some o))
    (hjmp : lowerL (upperL m) = cl "jmp") :
    (∀ a : Nat, labels.lookup o = some a →
      parse_instruction labels dataTab line =
        .ok (Int.ofNat 8 :: (beBytes a).map Int.ofNat ++ [0]))
    ∧ (labels.lookup o = none → hasDigit o = true →
       ∀ v : Int, pyIntHex o = some v → 0 ≤ v →
        parse_instruction labels dataTab line =
          .ok (Int.ofNat 8 :: (beBytes v.toNat).map Int.ofNat ++ [0]))
    ∧ (labels.lookup o = none → hasDigit o = false →
        parse_instruction labels dataTab line =
          .error ("Invalid operand: " ++ String.mk o))
    ∧ (labels.lookup o = none → hasDigit o = true → pyIntHex o = none →
        parse_instruction labels dataTab line =
          .error ("invalid literal for int with base 16: " ++ String.mk o))
    ∧ (∀ n : Nat, beFold (beBytes n) = n ∧ (∀ b ∈ beBytes n, b < 256) ∧
        ∀ t, beBytes n ≠ 0 :: t) := by
  have hop : opValue (normalize_op_name (upperL m)) = some 8 := by
    unfold normalize_op_name
    rw [hjmp]
    simp
    decide
  refine ⟨?_, ?_, ?_, ?_, ?_⟩
  · intro a ha
    simp only [parse_instruction, hm, hop, hjmp, ha]
    by_cases h0 : a = 0
    · subst h0
      simp [beBytes_zero]
    · simp [h0]
  · intro hlk hdg v hv hv0
    simp only [parse_instruction, hm, hop, hjmp, hlk, hdg, hv]
    by_cases h0 : v = 0
    · subst h0
      simp [beBytes_zero]
    · simp [h0]
  · intro hlk hdg
    simp only [parse_instruction, hm, hop, hjmp, hlk, hdg]
    simp
  · intro hlk hdg hv
    simp only [parse_instruction, hm, hop, hjmp, hlk, hdg, hv]
    simp
  · intro n
    exact ⟨beBytes_fold n, beBytes_lt n, beBytes_no_lead n⟩

/-- Closed instance of the amended jump encoding: `jmp loop` against a
symbol table mapping `loop` to address 516 emits 08 02 04 00. -/
theorem c2_amended_witness :
    parse_instruction [(cl "loop", 516)] [] (cl "jmp loop") =
      .ok [Int.ofNat 8, 2, 4, 0] :=
  (c2_amended_jmp_encoding [(cl "loop", 516)] [] (cl "jmp loop") (cl "jmp")
    (cl "loop") rfl rfl).1 516 rfl

/-! ## Claims about the first pass and the data table -/

/-- C3 counterexample: after `%rep 2` / `pushi 1` / `%endrep`, the label
`foo` occupies byte address 4 of the expanded stream (two two-byte `pushi`
copies precede it, as the assembled output shows), yet pass 1 assigns it
address 2 — the repetition body is counted once, not twice. -/
theorem c3_counterexample :
    List.lookup (cl "foo")
      (pass1 [cl "%rep 2", cl "pushi 1", cl "%endrep", cl "foo:", cl "jmp foo"]) =
        some 2
    ∧ assembleCode "%rep 2\npushi 1\n%endrep\nfoo:\njmp foo" =
        .ok [0x01, 0x01, 0x01, 0x01, 0x08, 0x02, 0x00]
    ∧ (2 : Nat) ≠ 4 := by
  refine ⟨by decide, by decide, by decide⟩

/-- C3 amended: pass 1 works on the raw, unexpanded line sequence.  Every
directive line other than `%data` / `%enddata` / `%bytes` — in particular
`%rep`, `%endrep` and `%include` — leaves the label table, the address
counter and the data flag untouched, so a `%rep` body is counted exactly
once regardless of its count and labels of included units never enter the
table (witnessed by the two closed evaluations). -/
theorem c3_amended_pass1_unexpanded :
    (∀ (line d : List Char) (o : Option (List Char)) (ls : List (List Char))
       (lbls : List (List Char × Nat)) (addr : Nat) (ind : Bool),
       dirMatch (pstrip line) = some (d, o) →
       lowerL d ≠ cl "data" → lowerL d ≠ cl "enddata" → lowerL d ≠ cl "bytes" →
       pass1Go (line :: ls) lbls addr ind = pass1Go ls lbls addr ind)
    ∧ pass1 [cl "%rep 2", cl "pushi 1", cl "%endrep", cl "foo:"] = [(cl "foo", 2)]
    ∧ pass1 [cl "%include \"lib.asm\"", cl "start:"] = [(cl "start", 0)] := by
  refine ⟨?_, by decide, by decide⟩
  intro line d o ls lbls addr ind hd h1 h2 h3
  exact pass1Go_directive_skip line d o ls lbls addr ind hd h1 h2 h3

/-- Closed instance of the amended C3 theorem: a `%rep 5` line is skipped
by pass 1. -/
theorem c3_amended_witness :
    pass1Go [cl "%rep 5"] [] 0 false = pass1Go [] [] 0 false :=
  c3_amended_pass1_unexpanded.1 (cl "%rep 5") (cl "rep") (some (cl "5"))
    [] [] 0 false rfl (by decide) (by decide) (by decide)

/-- C4: the claim matches the intent visible in `define_data_label`
(which raises on a duplicate), but that method is never called — the data
section assigns directly into the table, so a duplicate `msg` silently
overwrites the first definition and assembly succeeds, emitting the bytes
of the second definition (02 02) instead of aborting. -/
theorem c4_duplicate_data_label_not_rejected :
    assembleCode "%data\nmsg: %bytes 01\nmsg: %bytes 02\n%enddata\npushsz $msg" =
      .ok [0x02, 0x02]
    ∧ define_data_label [(cl "msg", [1])] (cl "msg") [2] =
        .error "Duplicate data label: msg" := by
  refine ⟨by decide, by decide⟩

/-- C5 counterexample: `pushsz "hi"` emits 02 68 69 00 00 — the UTF-8 bytes
are followed by two zero bytes (one appended to the encoded string, one
more from the returned tuple), not the single terminator the claim
states. -/
theorem c5_counterexample :
    assembleCode "pushsz \"hi\"" = .ok [0x02, 0x68, 0x69, 0x00, 0x00]
    ∧ (Except.ok [0x02, 0x68, 0x69, 0x00, 0x00] : Except String (List Nat)) ≠
        .ok [0x02, 0x68, 0x69, 0x00] := by
  refine ⟨by decide, by decide⟩

/-- C5 amended: for a generic (non-`jmp`) instruction whose operand is a
quoted string literal containing no decimal digit, the emitted fragment is
the opcode, the UTF-8 bytes of the operand with all edge quote characters
stripped, and exactly two terminating zero bytes.  (An operand containing
a digit is intercepted by the base-16 integer path instead.) -/
theorem c5_amended_quoted_string
    (labels : List (List Char × Nat)) (dataTab : List (List Char × List Int))
    (line m o : List Char)
    (hm : instrMatch line = some (m, some o))
    (hnj : lowerL (upperL m) ≠ cl "jmp")
    (opv : Nat) (hop : opValue (normalize_op_name (upperL m)) = some opv)
    (hd : hasDigit o = false)
    (hq1 : o.head? = some '"') (hq2 : o.getLast? = some '"') :
    parse_instruction labels dataTab line =
      .ok (Int.ofNat opv :: utf8Bytes (stripQuotes o) ++ [0, 0]) := by
  simp only [parse_instruction, hm, hop, hnj, hd, hq1, hq2]
  simp [hnj]

/-- Closed instance of the amended C5 theorem at `pushsz "hi"`. -/
theorem c5_amended_witness :
    parse_instruction [] [] (cl "pushsz \"hi\"") =
      .ok [Int.ofNat 2, 0x68, 0x69, 0, 0] :=
  c5_amended_quoted_string [] [] (cl "pushsz \"hi\"") (cl "pushsz")
    (cl "\"hi\"") rfl (by decide) 2 rfl rfl rfl rfl

/-- C6 counterexample: a bare `jmp` line (mnemonic beginning with `j`, no
operand) advances the pass-1 counter by 1, not by the 4 bytes the claim
requires for every `j`-mnemonic line: the operand test is applied before
the `j` test. -/
theorem c6_counterexample :
    pass1Go [cl "jmp"] [] 0 false = ([], 1, false) ∧ (1 : Nat) ≠ 4 := by
  refine ⟨by decide, by decide⟩

/-- C6 amended: pass 1 sizes an instruction line by first testing the
operand shape: 4 bytes when the line has an operand and starts with the
character `j` (case-sensitively), 2 bytes when it has an operand but does
not start with `j`, and 1 byte — regardless of the mnemonic — when it has
no operand. -/
theorem c6_amended_pass1_sizes (line : List Char) (ls : List (List Char))
    (lbls : List (List Char × Nat)) (addr : Nat)
    (hstrip : pstrip line = line) (hne : line ≠ [])
    (hnc : (cl "//").isPrefixOf line = false)
    (hnd : (cl "%").isPrefixOf line = false)
    (hnl : [':'].isSuffixOf line = false) :
    pass1Go (line :: ls) lbls addr false =
      pass1Go ls lbls
        (addr + (if hasOperandShape line then
                   (if line.head? = some 'j' then 4 else 2) else 1)) false :=
  pass1Go_instr_line line ls lbls addr hstrip hne hnc hnd hnl

/-- Closed instance of the amended C6 theorem: `jmp 0x08` reserves 4
bytes, matching the heuristic. -/
theorem c6_amended_witness :
    pass1Go [cl "jmp 0x08"] [] 0 false = pass1Go [] [] (0 + 4) false :=
  c6_amended_pass1_sizes (cl "jmp 0x08") [] [] 0 rfl (by decide) rfl rfl rfl

/-! ## Claims about undefined data references, run isolation and the
digit-interception rule -/

/-- C8 counterexample: the undefined reference `pushsz $a1` does not raise
the undefined-reference error — because the operand contains a digit it is
parsed as a base-16 integer first, and the run aborts with the invalid
integer literal error instead. -/
theorem c8_counterexample :
    assembleCode "pushsz $a1" = .error "invalid literal for int with base 16: $a1"
    ∧ assembleCode "pushsz $a1" ≠ .error "Undefined label: a1" := by
  refine ⟨by decide, by decide⟩

/-- C8 amended: for a generic (non-`jmp`) instruction whose `$name` operand
contains no decimal digit and whose name is absent from the data table at
encode time, the encoder raises the undefined-reference error
(`Undefined label:` name); any line error aborts the remainder of the
second pass, so no output byte array is produced. -/
theorem c8_amended_undefined_data_ref
    (labels : List (List Char × Nat)) (dataTab : List (List Char × List Int))
    (line m o : List Char)
    (hm : instrMatch line = some (m, some o))
    (hnj : lowerL (upperL m) ≠ cl "jmp")
    (opv : Nat) (hop : opValue (normalize_op_name (upperL m)) = some opv)
    (hd : hasDigit o = false)
    (hq : o.head? = some '$')
    (hlook : dataTab.lookup (o.drop 1) = none) :
    parse_instruction labels dataTab line =
      .error ("Undefined label: " ++ String.mk (o.drop 1))
    ∧ ∀ (fuel : Nat) (s : St) (l : List Char) (ls : List (List Char)) (e : String),
        parse_line fuel s l = .error e → pass2 fuel s (l :: ls) = .error e := by
  constructor
  · simp only [parse_instruction, hm, hop, hnj, hd, hq, hlook]
    simp [hnj, hq]
  · intro fuel s l ls e h
    simp only [pass2, h]

/-- Closed instance of the amended C8 theorem at `pushsz $undef` with an
empty data table. -/
theorem c8_amended_witness :
    parse_instruction [] [] (cl "pushsz $undef") =
      .error "Undefined label: undef" :=
  (c8_amended_undefined_data_ref [] [] (cl "pushsz $undef") (cl "pushsz")
    (cl "$undef") rfl (by decide) 2 rfl rfl rfl rfl).1

/-- C9 counterexample: `assemble` does not reset the preprocessor state.
Assembling `%data` (no `%enddata`) leaves `in_data_section` set, and a
subsequent run of `pushi 1` on the same object treats the instruction as a
data-section line and emits nothing, while a fresh run emits 01 01. -/
theorem c9_counterexample :
    ((assembleRun (initSt []) "%data").bind
        (fun p => assembleRun p.1 "pushi 1")).map (fun p => p.2) = .ok []
    ∧ (assembleRun (initSt []) "pushi 1").map (fun p => p.2) = .ok [0x01, 0x01]
    ∧ (Except.ok [] : Except String (List Nat)) ≠ .ok [0x01, 0x01] := by
  refine ⟨by decide, by decide, by decide⟩

/-- C9 amended: `assemble` resets the symbol table, the data table and the
output at the start of every run, so the result of a run depends only on
the source, the include files and the four preprocessor fields that are
*not* reset (`in_rep`, `rep_count`, `rep_buffer`, `in_data_section`):
two objects agreeing on those fields assemble any source identically.  In
particular runs on a fresh object are reproducible; state can leak across
runs only through an unterminated `%rep` or `%data` section. -/
theorem c9_amended_reset (s t : St) (code : String)
    (h1 : s.in_rep = t.in_rep) (h2 : s.rep_count = t.rep_count)
    (h3 : s.rep_buffer = t.rep_buffer) (h4 : s.in_data_section = t.in_data_section)
    (h5 : s.fs = t.fs) :
    assembleRun s code = assembleRun t code := by
  unfold assembleRun assembleWith
  have hst :
      ({ s with labels := pass1 (pysplitlines code.data), output := [], data := [] } : St) =
        { t with labels := pass1 (pysplitlines code.data), output := [], data := [] } := by
    cases s
    cases t
    simp_all
  rw [hst]

/-- Closed instance of the amended C9 theorem: an object carrying stale
label, data and output tables assembles `pushi 1` exactly like a fresh
object. -/
theorem c9_amended_witness :
    assembleRun ⟨false, 0, [], [(cl "x", 5)], false, [(cl "d", [7])], [[9]], []⟩
        "pushi 1" =
      assembleRun (initSt []) "pushi 1" :=
  c9_amended_reset ⟨false, 0, [], [(cl "x", 5)], false, [(cl "d", [7])], [[9]], []⟩
    (initSt []) "pushi 1" rfl rfl rfl rfl rfl

/-- C10: a generic (non-`jmp`) instruction operand containing at least one
decimal digit is always handed to the base-16 integer parser — the
quoted-string, `$`-reference and bare-identifier paths are never
considered — and the run aborts whenever the operand is not a valid
base-16 numeral. -/
theorem c10_digit_operand_is_hex
    (labels : List (List Char × Nat)) (dataTab : List (List Char × List Int))
    (line m o : List Char)
    (hm : instrMatch line = some (m, some o))
    (hnj : lowerL (upperL m) ≠ cl "jmp")
    (opv : Nat) (hop : opValue (normalize_op_name (upperL m)) = some opv)
    (hd : hasDigit o = true) :
    parse_instruction labels dataTab line =
      match pyIntHex o with
      | none => .error ("invalid literal for int with base 16: " ++ String.mk o)
      | some v => .ok [Int.ofNat opv, v] := by
  simp only [parse_instruction, hm, hop, hnj, hd]
  simp [hnj]

/-- Closed instance of C10: the quoted string `"v1"` contains a digit, so
`pushsz "v1"` is parsed as a base-16 integer and aborts, rather than being
encoded by the string rule. -/
theorem c10_witness :
    parse_instruction [] [] (cl "pushsz \"v1\"") =
      .error "invalid literal for int with base 16: \"v1\"" :=
  c10_digit_operand_is_hex [] [] (cl "pushsz \"v1\"") (cl "pushsz")
    (cl "\"v1\"") rfl (by decide) 2 rfl rfl
